import Mathlib

/-!
# Verification of the grayboty points / tier leaderboard core

A shallow embedding of `src/grayboty.py`, the Discord bot maintaining
per-guild, per-member point categories in a MongoDB collection, deriving
tiers and ranks from role markers, and serving a paginated tier leaderboard.

Modelling conventions:
* The Mongo `points` collection is a list of documents; `find_one` returns the
  first document matching `{guild_id, user_id}`, and `find_one_and_update`
  with `$inc` and `upsert=True` updates the first match in place or appends a
  fresh document, returning the post-update field value
  (`ReturnDocument.AFTER`).
* Python `int` is `Int`; Python floor division `//` is `Int.fdiv`.
* Python strings are `String`; the string operations the source uses
  (`sub in s`, `s.split(sep)[0]`, `s.strip()`) are implemented over the
  character list so that they compute.
* Python's `list.sort(key=...)` is a stable sort; a stable sort's output is
  uniquely determined by the key preorder, so it is modelled by
  `List.insertionSort` over the lexicographic key order (Mathlib proves
  `mergeSort_eq_insertionSort`, i.e. all stable sorts agree).
* A guild is the list of its member ids (`guild.get_member` succeeds exactly
  on ids in the list); real guilds never repeat a member id, which appears as
  a `Nodup` hypothesis where it matters.
-/

/-- A document of the Mongo `points` collection:
`{guild_id: ..., user_id: ..., <category fields>}`. -/
structure Doc where
  guild_id : Int
  user_id : Int
  fields : List (String × Int)
deriving DecidableEq

/-- The `points` collection. -/
abbrev Store := List Doc

/-- The query filter `{"guild_id": gid, "user_id": uid}` applied to one
document. -/
def keyMatch (d : Doc) (gid uid : Int) : Bool :=
  d.guild_id == gid && d.user_id == uid

/-- Query `points_collection.find_one({"guild_id": gid, "user_id": uid})`. -/
def findOne (st : Store) (gid uid : Int) : Option Doc :=
  st.find? (fun d => keyMatch d gid uid)

/-- Python `doc.get(k, dflt)`. -/
def docGet (d : Doc) (k : String) (dflt : Int) : Int :=
  (d.fields.lookup k).getD dflt

/-- Function `get_user_data` (grayboty.py:54-56): a plain `find_one` query.  The store
is threaded through explicitly so that reads and writes have the same shape;
a read returns the store it was given. -/
def get_user_data (st : Store) (gid uid : Int) : Option Doc × Store :=
  (findOne st gid uid, st)

/-- Mongo `$inc` on one document's field list: increment the field if
present, otherwise create it holding the increment. -/
def incField (k : String) (a : Int) : List (String × Int) → List (String × Int)
  | [] => [(k, a)]
  | (k', v) :: fs =>
      if k' == k then (k', v + a) :: fs else (k', v) :: incField k a fs

/-- Function `add_points` (grayboty.py:58-65): `find_one_and_update` with `$inc`,
`upsert=True` and `ReturnDocument.AFTER`; returns the post-update value of
the incremented field together with the updated collection. -/
def add_points : Store → Int → Int → String → Int → Int × Store
  | [], gid, uid, field, amount =>
      (amount, [⟨gid, uid, [(field, amount)]⟩])
  | d :: ds, gid, uid, field, amount =>
      if keyMatch d gid uid then
        let d' : Doc := ⟨d.guild_id, d.user_id, incField field amount d.fields⟩
        (docGet d' field 0, d' :: ds)
      else
        let r := add_points ds gid uid field amount
        (r.1, d :: r.2)

/-- The stored value of one category for one key; absent documents and absent
fields read as zero (the implicit-zero convention of the data model). -/
def storeVal (st : Store) (gid uid : Int) (field : String) : Int :=
  match findOne st gid uid with
  | some d => docGet d field 0
  | none => 0

/-- Modelled from the spec: `add_points_batch` is called by the batch
commands (`addtp`, `addra`, `addwar`, `addeve`) but its definition is not
part of `src/grayboty.py`.  Per the spec's `batchAdd`, it applies the same
delta to each listed entity as an independent, per-entity atomic increment. -/
def add_points_batch (st : Store) (gid : Int) (member_ids : List Int)
    (field : String) (amount : Int) : Store :=
  member_ids.foldl (fun s uid => (add_points s gid uid field amount).2) st

theorem keyMatch_iff (d : Doc) (gid uid : Int) :
    keyMatch d gid uid = true ↔ d.guild_id = gid ∧ d.user_id = uid := by
  simp [keyMatch]

theorem storeVal_nil (g u : Int) (fl : String) : storeVal [] g u fl = 0 := by
  simp [storeVal, findOne]

theorem storeVal_cons (d : Doc) (ds : Store) (g u : Int) (fl : String) :
    storeVal (d :: ds) g u fl =
      if keyMatch d g u then docGet d fl 0 else storeVal ds g u fl := by
  simp only [storeVal, findOne, List.find?]
  cases keyMatch d g u <;> simp

theorem lookup_incField_self (k : String) (a : Int) (fs : List (String × Int)) :
    (incField k a fs).lookup k = some ((fs.lookup k).getD 0 + a) := by
  induction fs with
  | nil => simp [incField]
  | cons p fs ih =>
    obtain ⟨k', v⟩ := p
    by_cases h : k' = k
    · subst h; simp [incField, List.lookup]
    · have hb : (k == k') = false :=
        beq_eq_false_iff_ne.mpr (fun hh => h hh.symm)
      have hb' : (k' == k) = false := beq_eq_false_iff_ne.mpr h
      simp [incField, List.lookup, hb, hb', ih]

theorem lookup_incField_other (k k' : String) (h : k' ≠ k) (a : Int)
    (fs : List (String × Int)) : (incField k a fs).lookup k' = fs.lookup k' := by
  have hb : (k' == k) = false := beq_eq_false_iff_ne.mpr h
  induction fs with
  | nil => simp [incField, List.lookup, hb]
  | cons p fs ih =>
    obtain ⟨k'', v⟩ := p
    by_cases h2 : k'' = k
    · subst h2
      simp [incField, List.lookup, hb]
    · have hb2 : (k'' == k) = false := beq_eq_false_iff_ne.mpr h2
      cases hx : (k' == k'') <;> simp [incField, List.lookup, hb2, hx, ih]

/-- The value returned by `add_points` is the old stored value plus the
delta. -/
theorem add_points_fst (st : Store) (gid uid : Int) (f : String) (a : Int) :
    (add_points st gid uid f a).1 = storeVal st gid uid f + a := by
  induction st with
  | nil => simp [add_points, storeVal, findOne]
  | cons d ds ih =>
    by_cases hk : keyMatch d gid uid = true
    · simp [add_points, hk, docGet, lookup_incField_self, storeVal_cons]
    · simp only [Bool.not_eq_true] at hk
      simp [add_points, hk, storeVal_cons, ih]

/-- Effect of `add_points` on every stored value: the addressed
(guild, user, field) cell gains the delta, every other cell is untouched. -/
theorem storeVal_add_points (st : Store) (gid uid g u : Int) (f fl : String)
    (a : Int) :
    storeVal (add_points st gid uid f a).2 g u fl =
      if g = gid ∧ u = uid ∧ fl = f
      then storeVal st g u fl + a
      else storeVal st g u fl := by
  induction st with
  | nil =>
    have h2 : (add_points [] gid uid f a).2 = [⟨gid, uid, [(f, a)]⟩] := rfl
    rw [h2, storeVal_cons, storeVal_nil]
    by_cases hgu : g = gid ∧ u = uid
    · obtain ⟨hg1, hu1⟩ := hgu
      subst hg1; subst hu1
      have hb : keyMatch ⟨g, u, [(f, a)]⟩ g u = true := by simp [keyMatch]
      simp only [hb, if_true]
      by_cases hf : fl = f
      · subst hf
        simp [docGet, List.lookup]
      · have hbf : (fl == f) = false := beq_eq_false_iff_ne.mpr hf
        simp [docGet, List.lookup, hbf, hf]
    · have hb : keyMatch ⟨gid, uid, [(f, a)]⟩ g u = false := by
        simp only [keyMatch, Bool.and_eq_false_iff, beq_eq_false_iff_ne, ne_eq]
        omega
      have hcond : ¬ (g = gid ∧ u = uid ∧ fl = f) := fun h => hgu ⟨h.1, h.2.1⟩
      simp [hb, hcond]
  | cons d ds ih =>
    by_cases hk : keyMatch d gid uid = true
    · have hd : d.guild_id = gid ∧ d.user_id = uid := (keyMatch_iff d gid uid).mp hk
      simp only [add_points, hk, if_true]
      have hkm : keyMatch ⟨d.guild_id, d.user_id, incField f a d.fields⟩ g u
          = keyMatch d g u := by simp [keyMatch]
      simp only [storeVal_cons, hkm]
      cases hk2 : keyMatch d g u with
      | false =>
        have hcond : ¬ (g = gid ∧ u = uid ∧ fl = f) := by
          rintro ⟨hh1, hh2, _⟩
          rw [hh1, hh2] at hk2
          rw [hk2] at hk
          simp at hk
        simp [hcond]
      | true =>
        have hd2 : d.guild_id = g ∧ d.user_id = u := (keyMatch_iff d g u).mp hk2
        have hh1 : g = gid := by omega
        have hh2 : u = uid := by omega
        subst hh1; subst hh2
        by_cases hf : fl = f
        · subst hf
          simp [docGet, lookup_incField_self]
        · simp [docGet, lookup_incField_other f fl hf, hf]
    · simp only [Bool.not_eq_true] at hk
      simp only [add_points, hk, Bool.false_eq_true, if_false]
      simp only [storeVal_cons]
      cases hk2 : keyMatch d g u with
      | true =>
        have hd2 : d.guild_id = g ∧ d.user_id = u := (keyMatch_iff d g u).mp hk2
        have hcond : ¬ (g = gid ∧ u = uid ∧ fl = f) := by
          rintro ⟨hh1, hh2, _⟩
          have ht : keyMatch d gid uid = true :=
            (keyMatch_iff d gid uid).mpr ⟨hd2.1.trans hh1, hd2.2.trans hh2⟩
          rw [ht] at hk
          simp at hk
        simp [hcond]
      | false =>
        exact ih

/-- Effect of the (spec-modelled) batch increment on stored values, for a
duplicate-free id list: every listed id's cell gains the delta once, all
other cells are untouched. -/
theorem storeVal_add_points_batch (uids : List Int) (hnd : uids.Nodup)
    (st : Store) (gid g u : Int) (f fl : String) (a : Int) :
    storeVal (add_points_batch st gid uids f a) g u fl =
      if g = gid ∧ fl = f ∧ u ∈ uids
      then storeVal st g u fl + a
      else storeVal st g u fl := by
  induction uids generalizing st with
  | nil => simp [add_points_batch]
  | cons u0 us ih =>
    have hnd' : us.Nodup := hnd.of_cons
    have hu0 : u0 ∉ us := by
      intro hmem; exact (List.nodup_cons.mp hnd).1 hmem
    have hstep : add_points_batch st gid (u0 :: us) f a
        = add_points_batch (add_points st gid u0 f a).2 gid us f a := by
      simp [add_points_batch]
    rw [hstep, ih hnd']
    by_cases hg : g = gid <;> by_cases hf : fl = f <;>
      by_cases he : u = u0 <;> by_cases hmem : u ∈ us <;>
      rw [storeVal_add_points] <;> simp_all

/-! ## Command surface: batch additions and removals -/

/-- One line of the summary / embed description a points command builds. -/
inductive SumEntry
  | gotPoints (uid : Int) (field : String) (amount : Int)
  | notFound (uid : Int)
  | removed (uid : Int) (field : String) (amt newTotal : Int)
  | noPointsToRemove (uid : Int) (field : String)
deriving DecidableEq

/-- Command `addra` (grayboty.py:573-626), the part after validation: look every
mentioned id up in the guild, record `+1 Rp` or `User ID ... not found in
guild.` per mention, batch-add 1 `rp` to the found members, then do the same
with `+1 Mp` for the `extra` mentions (the `mp` batch is guarded by the
`if extra_objs:` emptiness test).  A guild is its list of member ids;
`{m.id: m for m in guild.members if m.id in member_ids}` keeps the guild's
iteration order, so its key list is `guildMembers.filter (· ∈ member_ids)`. -/
def addra (guildMembers : List Int) (gid : Int) (member_ids extra_ids : List Int)
    (st : Store) : List SumEntry × Store :=
  let keys := guildMembers.filter (fun m => member_ids.contains m)
  let summary1 := member_ids.map (fun mid =>
    if guildMembers.contains mid then SumEntry.gotPoints mid "rp" 1
    else SumEntry.notFound mid)
  let st1 := add_points_batch st gid keys "rp" 1
  let extraKeys := guildMembers.filter (fun m => extra_ids.contains m)
  let summary2 := extra_ids.map (fun eid =>
    if guildMembers.contains eid then SumEntry.gotPoints eid "mp" 1
    else SumEntry.notFound eid)
  let st2 := if extraKeys.isEmpty then st1
             else add_points_batch st1 gid extraKeys "mp" 1
  (summary1 ++ summary2, st2)

/-- Command `addtp` (grayboty.py:463-516), the part after validation: the caller
silently gets `+1` tp, then the three mention strings are scanned in the
order mvp (+3), promo (+2), attended (+1); a mention resolving to a guild
member is appended to that weight's batch and to the description, a mention
of an absent id is skipped without any report.  Returns whether any valid
mention was found (otherwise the command stops with an info notice before
applying any batch), the description entries, and the store after the
batches ran. -/
def addtp (guildMembers : List Int) (gid caller : Int)
    (mvp promo attended : List Int) (st : Store) :
    Bool × List SumEntry × Store :=
  let st0 := (add_points st gid caller "tp" 1).2
  let cats : List (Int × List Int) := [(3, mvp), (2, promo), (1, attended)]
  let valid := cats.map (fun pu =>
    (pu.1, pu.2.filter (fun uid => guildMembers.contains uid)))
  let anyValid := valid.any (fun pu => !pu.2.isEmpty)
  let summary := (valid.map (fun pu =>
    pu.2.map (fun uid => SumEntry.gotPoints uid "tp" pu.1))).flatten
  let batches := valid.filter (fun pu => !pu.2.isEmpty)
  let st' := if anyValid
             then batches.foldl (fun s pu => add_points_batch s gid pu.2 "tp" pu.1) st0
             else st0
  (anyValid, summary, st')

/-- A Python runtime exception escaping a handler. -/
inductive PyErr
  | attributeError
deriving DecidableEq

/-- The body of `deltp`'s per-mention loop (grayboty.py:1052-1065): resolve
the mention in the guild, read the member's document, clamp the removal at
the current `tp` value, apply it when positive.  `doc.get("tp", 0)` on the
`None` returned by `get_user_data` for a recordless member raises
`AttributeError`. -/
def deltpStep (guildMembers : List Int) (gid : Int) (points : Int) (st : Store)
    (mid : Int) : Except PyErr (SumEntry × Store) :=
  if guildMembers.contains mid then
    match (get_user_data st gid mid).1 with
    | none => .error .attributeError
    | some doc =>
      let current_tp := docGet doc "tp" 0
      let remove_amt := min points current_tp
      if remove_amt > 0 then
        let r := add_points st gid mid "tp" (-remove_amt)
        .ok (SumEntry.removed mid "tp" remove_amt r.1, r.2)
      else
        .ok (SumEntry.noPointsToRemove mid "tp", st)
  else
    .ok (SumEntry.notFound mid, st)

/-- The body of `delmp`'s per-mention loop (grayboty.py:1105-1118): identical
to `deltp` with the `mp` field. -/
def delmpStep (guildMembers : List Int) (gid : Int) (points : Int) (st : Store)
    (mid : Int) : Except PyErr (SumEntry × Store) :=
  if guildMembers.contains mid then
    match (get_user_data st gid mid).1 with
    | none => .error .attributeError
    | some doc =>
      let current_mp := docGet doc "mp" 0
      let remove_amt := min points current_mp
      if remove_amt > 0 then
        let r := add_points st gid mid "mp" (-remove_amt)
        .ok (SumEntry.removed mid "mp" remove_amt r.1, r.2)
      else
        .ok (SumEntry.noPointsToRemove mid "mp", st)
  else
    .ok (SumEntry.notFound mid, st)

/-- The amount a removal summary line reports as actually removed. -/
def removedOf : SumEntry → Int
  | .removed _ _ amt _ => amt
  | _ => 0

/-! ## C5, C9, C2, C1 -/

/-- C5: `get` is pure.  `get_user_data(gid, uid)` never creates, modifies or
deletes any stored record (the store it returns is the store it was given,
in particular of unchanged length), it returns the distinguished `None`
rather than a zero-valued record when the key is absent, and two consecutive
calls with no intervening writes return identical results. -/
theorem get_user_data_pure (st : Store) (gid uid : Int) :
    (get_user_data st gid uid).2 = st ∧
    get_user_data ((get_user_data st gid uid).2) gid uid
      = get_user_data st gid uid ∧
    (findOne st gid uid = none →
      (get_user_data st gid uid).1 = none ∧
      ((get_user_data st gid uid).2).length = st.length) :=
  ⟨rfl, rfl, fun h => ⟨h, rfl⟩⟩

theorem get_user_data_pure_witness :
    (get_user_data ([] : Store) 0 0).1 = none ∧
    ((get_user_data ([] : Store) 0 0).2).length = ([] : Store).length :=
  (get_user_data_pure [] 0 0).2.2 (by rfl)

/-- C9: on a mentioned member who is in the guild but has no ledger record,
`get_user_data` returns `None` and the `doc.get(...)` attribute access in
`deltp`/`delmp` raises `AttributeError` instead of reporting zero points
removed. -/
theorem del_on_recordless_raises (guildMembers : List Int)
    (gid points mid : Int) (st : Store)
    (hmem : mid ∈ guildMembers) (hno : findOne st gid mid = none) :
    deltpStep guildMembers gid points st mid = .error .attributeError ∧
    delmpStep guildMembers gid points st mid = .error .attributeError := by
  have hc : guildMembers.contains mid = true := by simpa using hmem
  constructor <;> simp [deltpStep, delmpStep, hc, hmem, get_user_data, hno]

theorem del_on_recordless_raises_witness :
    deltpStep [7] 1 5 [] 7 = .error .attributeError ∧
    delmpStep [7] 1 5 [] 7 = .error .attributeError :=
  del_on_recordless_raises [7] 1 5 7 [] (by decide) (by rfl)

/-- C2: removal clamps at the current balance.  For a mentioned guild member
whose document holds `tp = Ctp` and `mp = Cmp` (both non-negative, as all
values written through the ledger are) and a requested amount `A ≥ 1`,
`deltp`'s and `delmp`'s per-member step succeed, remove exactly
`min A C`, leave `C - min A C` stored (never negative), and — when anything
was removed — report exactly the removed amount and the new total. -/
theorem remove_clamps (guildMembers : List Int) (gid mid : Int) (st : Store)
    (A : Int) (doc : Doc) (Ctp Cmp : Int)
    (hmem : mid ∈ guildMembers)
    (hdoc : findOne st gid mid = some doc)
    (htp : docGet doc "tp" 0 = Ctp) (hmp : docGet doc "mp" 0 = Cmp)
    (htp0 : 0 ≤ Ctp) (hmp0 : 0 ≤ Cmp) (hA : 1 ≤ A) :
    (∃ e st', deltpStep guildMembers gid A st mid = .ok (e, st') ∧
      removedOf e = min A Ctp ∧
      storeVal st' gid mid "tp" = Ctp - min A Ctp ∧
      0 ≤ storeVal st' gid mid "tp" ∧
      (0 < Ctp → e = .removed mid "tp" (min A Ctp) (Ctp - min A Ctp))) ∧
    (∃ e st', delmpStep guildMembers gid A st mid = .ok (e, st') ∧
      removedOf e = min A Cmp ∧
      storeVal st' gid mid "mp" = Cmp - min A Cmp ∧
      0 ≤ storeVal st' gid mid "mp" ∧
      (0 < Cmp → e = .removed mid "mp" (min A Cmp) (Cmp - min A Cmp))) := by
  have hc : guildMembers.contains mid = true := by simpa using hmem
  have hsv : storeVal st gid mid "tp" = Ctp := by
    simp [storeVal, hdoc, htp]
  have hsvm : storeVal st gid mid "mp" = Cmp := by
    simp [storeVal, hdoc, hmp]
  constructor
  · by_cases hpos : 0 < Ctp
    · have hgt : min A Ctp > 0 := by omega
      refine ⟨SumEntry.removed mid "tp" (min A Ctp)
        (add_points st gid mid "tp" (-(min A Ctp))).1,
        (add_points st gid mid "tp" (-(min A Ctp))).2, ?_, ?_, ?_, ?_, ?_⟩
      · simp [deltpStep, hc, hmem, get_user_data, hdoc, htp, hgt]
      · simp [removedOf]
      · rw [storeVal_add_points, if_pos ⟨rfl, rfl, rfl⟩, hsv]
        omega
      · rw [storeVal_add_points, if_pos ⟨rfl, rfl, rfl⟩, hsv]
        omega
      · intro _
        rw [add_points_fst, hsv]
        have heq : Ctp + -(min A Ctp) = Ctp - min A Ctp := by omega
        rw [heq]
    · have hz : Ctp = 0 := by omega
      have hng : ¬ (min A Ctp > 0) := by omega
      refine ⟨SumEntry.noPointsToRemove mid "tp", st, ?_, ?_, ?_, ?_, ?_⟩
      · simp [deltpStep, hc, hmem, get_user_data, hdoc, htp, hng]
      · simp only [removedOf]; omega
      · rw [hsv]; omega
      · rw [hsv]; omega
      · intro h; omega
  · by_cases hpos : 0 < Cmp
    · have hgt : min A Cmp > 0 := by omega
      refine ⟨SumEntry.removed mid "mp" (min A Cmp)
        (add_points st gid mid "mp" (-(min A Cmp))).1,
        (add_points st gid mid "mp" (-(min A Cmp))).2, ?_, ?_, ?_, ?_, ?_⟩
      · simp [delmpStep, hc, hmem, get_user_data, hdoc, hmp, hgt]
      · simp [removedOf]
      · rw [storeVal_add_points, if_pos ⟨rfl, rfl, rfl⟩, hsvm]
        omega
      · rw [storeVal_add_points, if_pos ⟨rfl, rfl, rfl⟩, hsvm]
        omega
      · intro _
        rw [add_points_fst, hsvm]
        have heq : Cmp + -(min A Cmp) = Cmp - min A Cmp := by omega
        rw [heq]
    · have hz : Cmp = 0 := by omega
      have hng : ¬ (min A Cmp > 0) := by omega
      refine ⟨SumEntry.noPointsToRemove mid "mp", st, ?_, ?_, ?_, ?_, ?_⟩
      · simp [delmpStep, hc, hmem, get_user_data, hdoc, hmp, hng]
      · simp only [removedOf]; omega
      · rw [hsvm]; omega
      · rw [hsvm]; omega
      · intro h; omega

theorem remove_clamps_witness :
    (∃ e st', deltpStep [7] 1 100 [⟨1, 7, [("tp", 5), ("mp", 3)]⟩] 7
        = .ok (e, st') ∧
      removedOf e = min 100 5 ∧
      storeVal st' 1 7 "tp" = 5 - min 100 5 ∧
      0 ≤ storeVal st' 1 7 "tp" ∧
      (0 < (5 : Int) → e = .removed 7 "tp" (min 100 5) (5 - min 100 5))) ∧
    (∃ e st', delmpStep [7] 1 100 [⟨1, 7, [("tp", 5), ("mp", 3)]⟩] 7
        = .ok (e, st') ∧
      removedOf e = min 100 3 ∧
      storeVal st' 1 7 "mp" = 3 - min 100 3 ∧
      0 ≤ storeVal st' 1 7 "mp" ∧
      (0 < (3 : Int) → e = .removed 7 "mp" (min 100 3) (3 - min 100 3))) :=
  remove_clamps [7] 1 7 [⟨1, 7, [("tp", 5), ("mp", 3)]⟩] 100
    ⟨1, 7, [("tp", 5), ("mp", 3)]⟩ 5 3 (by decide) (by rfl) (by rfl) (by rfl)
    (by decide) (by decide) (by decide)

/-- C1 (counterexample to the claim as stated): in `addtp`, a mentioned id
that is not in the guild (here `99`, with only `1` in the guild) is silently
skipped — the command's result reports the valid member's `+2` and contains
no not-found report for `99`, although `99` was mentioned and absent. -/
theorem addtp_silently_skips_absent :
    ((99 : Int) ∈ ([1, 99] : List Int)) ∧
    ((99 : Int) ∉ ([1] : List Int)) ∧
    (addtp [1] 10 5 [] [1, 99] [] []).2.1 = [SumEntry.gotPoints 1 "tp" 2] ∧
    SumEntry.notFound 99 ∉ (addtp [1] 10 5 [] [1, 99] [] []).2.1 := by
  refine ⟨by decide, by decide, by decide, by decide⟩

/-- C1 (amended): each entity present in the guild has the delta applied to
its stored total, and a missing entity never aborts nor perturbs the other
entities' updates; `addra` (like `addwar`/`addeve`) reports each absent
mentioned entity as not found in its summary, while `addtp` silently skips
absent mentions and reports nothing for them. -/
theorem batch_partial_success
    (guildMembers : List Int) (hnd : guildMembers.Nodup)
    (gid : Int) (member_ids extra_ids : List Int) (st : Store) :
    (∀ u, u ∈ guildMembers → u ∈ member_ids →
      storeVal (addra guildMembers gid member_ids extra_ids st).2 gid u "rp"
        = storeVal st gid u "rp" + 1) ∧
    (∀ m, m ∈ member_ids → m ∉ guildMembers →
      SumEntry.notFound m ∈ (addra guildMembers gid member_ids extra_ids st).1) ∧
    (∀ bad, bad ∉ guildMembers →
      (addra guildMembers gid (member_ids ++ [bad]) extra_ids st).2
        = (addra guildMembers gid member_ids extra_ids st).2) ∧
    (∀ caller mvp promo attended m,
      SumEntry.notFound m
        ∉ (addtp guildMembers gid caller mvp promo attended st).2.1) ∧
    (∀ caller mvp promo attended bad, bad ∉ guildMembers →
      (addtp guildMembers gid caller mvp (promo ++ [bad]) attended st).2.2
        = (addtp guildMembers gid caller mvp promo attended st).2.2) := by
  have knd : (guildMembers.filter (fun m => member_ids.contains m)).Nodup :=
    hnd.filter _
  have extnd : (guildMembers.filter (fun m => extra_ids.contains m)).Nodup :=
    hnd.filter _
  refine ⟨?_, ?_, ?_, ?_, ?_⟩
  · intro u hg hm
    have hukeys : u ∈ guildMembers.filter (fun m => member_ids.contains m) :=
      List.mem_filter.mpr ⟨hg, by simpa using hm⟩
    simp only [addra]
    by_cases hext :
        (guildMembers.filter (fun m => extra_ids.contains m)).isEmpty
    · simp only [hext, if_true]
      rw [storeVal_add_points_batch _ knd]
      rw [if_pos ⟨rfl, rfl, hukeys⟩]
    · simp only [hext, Bool.false_eq_true, if_false]
      rw [storeVal_add_points_batch _ extnd]
      rw [if_neg (by intro h; exact absurd h.2.1 (by decide))]
      rw [storeVal_add_points_batch _ knd]
      rw [if_pos ⟨rfl, rfl, hukeys⟩]
  · intro m hm hg
    have hc : guildMembers.contains m = false := by simpa using hg
    simp only [addra, List.mem_append, List.mem_map]
    left
    exact ⟨m, hm, by simp [hc, hg]⟩
  · intro bad hbad
    have hfil : guildMembers.filter (fun m => (member_ids ++ [bad]).contains m)
        = guildMembers.filter (fun m => member_ids.contains m) := by
      apply List.filter_congr
      intro x hx
      have hxb : x ≠ bad := fun h => hbad (h ▸ hx)
      simp [hxb]
    simp only [addra, hfil]
  · intro caller mvp promo attended m
    intro hmem
    simp only [addtp, List.mem_flatten, List.mem_map] at hmem
    obtain ⟨l, ⟨pu, hpu, hl⟩, hml⟩ := hmem
    subst hl
    obtain ⟨uid, huid, habs⟩ := List.mem_map.mp hml
    cases habs
  · intro caller mvp promo attended bad hbad
    have hc : guildMembers.contains bad = false := by simpa using hbad
    simp [addtp, List.filter_append, List.filter_cons, hbad, hc]

theorem batch_partial_success_witness :
    (storeVal (addra [1, 2] 10 [1, 99] [] []).2 10 1 "rp"
      = storeVal ([] : Store) 10 1 "rp" + 1) ∧
    (SumEntry.notFound 99 ∈ (addra [1, 2] 10 [1, 99] [] []).1) ∧
    ((addra [1, 2] 10 ([1] ++ [99]) [] []).2 = (addra [1, 2] 10 [1] [] []).2) := by
  have h := batch_partial_success [1, 2] (by decide) 10 [1, 99] [] []
  exact ⟨h.1 1 (by decide) (by decide), h.2.1 99 (by decide) (by decide),
    (batch_partial_success [1, 2] (by decide) 10 [1] [] []).2.2.1 99 (by decide)⟩

/-! ## Tier and rank derivation (string tables and role markers) -/

/-- Python `sub` is a prefix of the character list. -/
def isPrefixCL : List Char → List Char → Bool
  | [], _ => true
  | _ :: _, [] => false
  | a :: as, b :: bs => a == b && isPrefixCL as bs

/-- Python substring containment (`sub in s`) over characters. -/
def containsCL (sub : List Char) : List Char → Bool
  | [] => sub.isEmpty
  | c :: cs => isPrefixCL sub (c :: cs) || containsCL sub cs

/-- Python `sub in s`. -/
def strContains (s sub : String) : Bool := containsCL sub.data s.data

/-- The characters strictly before the first occurrence of `sep`
(all of them when `sep` does not occur). -/
def beforeFirst (sep : List Char) : List Char → List Char
  | [] => []
  | c :: cs => if isPrefixCL sep (c :: cs) then [] else c :: beforeFirst sep cs

/-- Python `s.split(sep)[0]`. -/
def splitHead (s sep : String) : String := ⟨beforeFirst sep.data s.data⟩

/-- Python `s.strip()`. -/
def strStrip (s : String) : String :=
  ⟨((s.data.dropWhile Char.isWhitespace).reverse.dropWhile
      Char.isWhitespace).reverse⟩

/-- Table `tier_roles` (grayboty.py:160-170): tier name → Discord role id. -/
def tier_roles : List (String × Int) := [
  ("✩ Legend-Tier", 1383883524783996998),
  ("★ Ashenlight-Tier", 1383882778474578080),
  ("Celestial-Tier", 1383882358343733330),
  ("Elite-Tier", 1383878896578986086),
  ("High-Tier", 1383020440993271839),
  ("Middle-Tier", 1383020382071820328),
  ("Low-Tier", 1383019912762626108),
  ("[ ⁂ ]", 1384516311354445965),
  ("[ ⁑ ]", 1384186134891855872)]

/-- Table `tier_order` (grayboty.py:941-944): base tiers, highest first. -/
def tier_order : List String := [
  "✩ Legend-Tier", "★ Ashenlight-Tier", "Celestial-Tier", "Elite-Tier",
  "High-Tier", "Middle-Tier", "Low-Tier"]

/-- Table `group_ranks_order` (grayboty.py:184-199): ranks, most senior first. -/
def group_ranks_order : List String := [
  "Elder Gray Emperor", "Gray Emperor", "Ashen Lord", "Gray Lord",
  "Master of Balance", "Grandmaster", "Master - On trial", "Silver Knight",
  "Gray Knight", "Knight", "Seeker", "Disciple", "Acolyte", "Initiate"]

/-- Table `valid_star_levels` (grayboty.py:765): the base tiers `addtier` allows
star assignment on. -/
def valid_star_levels : List String :=
  ["Low-Tier", "Middle-Tier", "High-Tier", "Elite-Tier", "Celestial-Tier"]

/-- A guild member as the tier commands see one: an id, the set of role ids,
and the set of role names. -/
structure MemberM where
  id : Int
  roleIds : List Int
  roleNames : List String
deriving DecidableEq

/-- Python `tier_roles.get(t) in role_ids` (`None in role_ids` is false). -/
def tierRoleIn (t : String) (roleIds : List Int) : Bool :=
  match tier_roles.lookup t with
  | some rid => roleIds.contains rid
  | none => false

/-- Function `get_member_tier` (grayboty.py:946-960): first base tier of `tier_order`
whose role the member holds, then — unconditionally — the ⁂ or ⁑ star suffix
when the member holds that star role (⁂ checked first). -/
def get_member_tier (m : MemberM) : Option String :=
  match tier_order.find? (fun t => tierRoleIn t m.roleIds) with
  | none => none
  | some base_tier =>
    if tierRoleIn "[ ⁂ ]" m.roleIds then some (base_tier ++ " [ ⁂ ]")
    else if tierRoleIn "[ ⁑ ]" m.roleIds then some (base_tier ++ " [ ⁑ ]")
    else some base_tier

/-- Function `get_member_rank` (grayboty.py:962-967): first rank of
`group_ranks_order` appearing among the member's role names. -/
def get_member_rank (m : MemberM) : Option String :=
  group_ranks_order.find? (fun r => m.roleNames.contains r)

/-- Function `parse_tier_components` (grayboty.py:982-990): star count from substring
containment, base tier from `tier_name.split(" [")[0].strip()`, base index
from `tier_order.index(base) if base in tier_order else len(tier_order)`;
returns `(base_index, -stars)`. -/
def parse_tier_components (tier_name : String) : Nat × Int :=
  let stars : Int :=
    if strContains tier_name "[ ⁂ ]" then 3
    else if strContains tier_name "[ ⁑ ]" then 2
    else 0
  let base := strStrip (splitHead tier_name " [")
  let base_index :=
    if tier_order.contains base then tier_order.findIdx (fun t => t == base)
    else tier_order.length
  (base_index, -stars)

/-- Function `rank_index` (grayboty.py:992-993). -/
def rank_index (rank_name : String) : Nat :=
  if group_ranks_order.contains rank_name
  then group_ranks_order.findIdx (fun r => r == rank_name)
  else group_ranks_order.length

/-- One element of `members_with_tier` (grayboty.py:969-976). -/
structure Entry where
  member : MemberM
  tier_name : String
  rank : String
deriving DecidableEq

/-- Function `members_with_tier` (grayboty.py:969-976): members with a resolvable
tier, optionally filtered by base tier (stars ignored by the filter), with
`get_member_rank(member) or "Initiate"` as the rank. -/
def members_with_tier (members : List MemberM) (filterTier : Option String) :
    List Entry :=
  members.filterMap (fun m =>
    match get_member_tier m with
    | none => none
    | some tier_name =>
      if (match filterTier with
          | none => true
          | some f => strStrip (splitHead tier_name " [") == f) then
        some ⟨m, tier_name, (get_member_rank m).getD "Initiate"⟩
      else none)

/-- The sort key of grayboty.py:995-998:
`(parse_tier_components(tier_name), rank_index(rank))`. -/
def sortKey (e : Entry) : (Nat × Int) × Nat :=
  (parse_tier_components e.tier_name, rank_index e.rank)

/-- Lexicographic comparison of Python tuples `((Nat, Int), Nat)`. -/
def tupLe (x y : (Nat × Int) × Nat) : Prop :=
  x.1.1 < y.1.1 ∨
    (x.1.1 = y.1.1 ∧ (x.1.2 < y.1.2 ∨ (x.1.2 = y.1.2 ∧ x.2 ≤ y.2)))

instance decTupLe : ∀ x y, Decidable (tupLe x y) := fun x y => by
  unfold tupLe
  infer_instance

/-- The key preorder `list.sort(key=...)` sorts by. -/
def keyLe (a b : Entry) : Prop := tupLe (sortKey a) (sortKey b)

instance decKeyLe : DecidableRel keyLe := fun a b => by
  unfold keyLe
  infer_instance

instance totalKeyLe : IsTotal Entry keyLe :=
  ⟨by intro a b; unfold keyLe tupLe; omega⟩

instance transKeyLe : IsTrans Entry keyLe :=
  ⟨by intro a b c; unfold keyLe tupLe; omega⟩

/-- Sort `members_with_tier.sort(key=...)` (grayboty.py:995-998).  Python's sort
is stable; stable-sort output is unique given the key preorder, so the
stable `insertionSort` models it. -/
def tierlistSorted (members : List MemberM) (filterTier : Option String) :
    List Entry :=
  List.insertionSort keyLe (members_with_tier members filterTier)

/-- Invoker position (grayboty.py:1000-1005): 1-based index of the first
entry carrying the invoker's id, if any. -/
def invokerPosition (sorted : List Entry) (invoker_id : Int) : Option Int :=
  match sorted.findIdx? (fun e => e.member.id == invoker_id) with
  | some i => some ((i : Int) + 1)
  | none => none

/-! ## C3, C4 -/

/-- Low-Tier member with no rank role (unresolved rank). -/
def memberX : MemberM := ⟨1, [1383019912762626108], []⟩

/-- Low-Tier member holding the lowest rank role "Initiate". -/
def memberY : MemberM := ⟨2, [1383019912762626108], ["Initiate"]⟩

/-- Spec example entity A: Low-Tier, 0 stars. -/
def memberA : MemberM := ⟨100, [1383019912762626108], []⟩

/-- Spec example entity B: Low-Tier, 3 stars. -/
def memberB : MemberM := ⟨101, [1383019912762626108, 1384516311354445965], []⟩

/-- Spec example entity C: Middle-Tier, 0 stars. -/
def memberC : MemberM := ⟨102, [1383020382071820328], []⟩

/-- The rank index the claim asserts for an entity whose markers match no
rank: an index placed after all known ranks.  (The code instead substitutes
the rank name "Initiate" before indexing.) -/
def claimRankIndex (m : MemberM) : Nat :=
  match get_member_rank m with
  | some r => rank_index r
  | none => group_ranks_order.length

/-- The claim's full sort key for a member. -/
def claimKey (m : MemberM) : (Nat × Int) × Nat :=
  (parse_tier_components ((get_member_tier m).getD ""), claimRankIndex m)

/-- C3 (counterexample to the claim as stated): X (Low-Tier, unranked) and
Y (Low-Tier, rank "Initiate") both get the code's rank index 13, so the
build keeps the input order `[X, Y]`; under the claimed key X would carry
rank index 14 (after all known ranks) and would have to sort after Y — the
produced order is not ascending in the claimed key. -/
theorem tierlist_unranked_ties_with_initiate :
    ((tierlistSorted [memberX, memberY] none).map (fun e => e.member.id)
      = [1, 2]) ∧
    get_member_rank memberX = none ∧
    claimRankIndex memberX = group_ranks_order.length ∧
    rank_index "Initiate" + 1 = group_ranks_order.length ∧
    ¬ ((tierlistSorted [memberX, memberY] none).map (fun e => e.member)).Pairwise
        (fun a b => tupLe (claimKey a) (claimKey b)) := by
  refine ⟨by decide, by decide, by decide, by decide, by decide⟩

/-- C3 (amended): the leaderboard build sorts ascending by the key
(baseTierIndex, -starCount, rankIndex) — lower base-tier table index first,
more stars first at equal base tier, lower rank index next; an entity whose
role markers match no rank is assigned the lowest rank "Initiate" (the last
rank-table entry, index 13), thereby tying with entities actually holding
that rank, not sorting after them.  The output is a permutation of the
filtered input, ties beyond the key keep the stable input order, and on the
spec's example the order is C, B, A. -/
theorem tierlist_order (members : List MemberM) (filterTier : Option String) :
    List.Sorted keyLe (tierlistSorted members filterTier) ∧
    (tierlistSorted members filterTier).Perm
      (members_with_tier members filterTier) ∧
    (∀ c : List Entry, c.Pairwise keyLe →
      c.Sublist (members_with_tier members filterTier) →
      c.Sublist (tierlistSorted members filterTier)) ∧
    (∀ e ∈ members_with_tier members filterTier,
      get_member_rank e.member = none →
      e.rank = "Initiate" ∧ rank_index e.rank + 1 = group_ranks_order.length) ∧
    (tierlistSorted [memberA, memberB, memberC] none).map (fun e => e.member.id)
      = [102, 101, 100] := by
  refine ⟨List.sorted_insertionSort keyLe _, List.perm_insertionSort keyLe _,
    ?_, ?_, by decide⟩
  · intro c hp hs
    exact List.sublist_insertionSort hp hs
  · intro e he hrank
    simp only [members_with_tier, List.mem_filterMap] at he
    obtain ⟨m, hm, hsome⟩ := he
    cases hgt : get_member_tier m with
    | none => rw [hgt] at hsome; simp at hsome
    | some tn =>
      rw [hgt] at hsome
      simp only [Option.ite_none_right_eq_some, Option.some.injEq] at hsome
      obtain ⟨hcond, hmk⟩ := hsome
      subst hmk
      have hrank2 : get_member_rank m = none := hrank
      constructor
      · show (get_member_rank m).getD "Initiate" = "Initiate"
        rw [hrank2]
        rfl
      · show rank_index ((get_member_rank m).getD "Initiate") + 1
          = group_ranks_order.length
        rw [hrank2]
        decide

theorem tierlist_order_witness :
    List.Sorted keyLe (tierlistSorted [memberX, memberY] none) ∧
    ([⟨memberX, "Low-Tier", "Initiate"⟩, ⟨memberY, "Low-Tier", "Initiate"⟩]
       : List Entry).Sublist (tierlistSorted [memberX, memberY] none) ∧
    ((⟨memberX, "Low-Tier", "Initiate"⟩ : Entry).rank = "Initiate" ∧
      rank_index (⟨memberX, "Low-Tier", "Initiate"⟩ : Entry).rank + 1
        = group_ranks_order.length) := by
  have h := tierlist_order [memberX, memberY] none
  refine ⟨h.1, h.2.2.1 _ (by decide) (by decide), ?_⟩
  exact h.2.2.2.1 ⟨memberX, "Low-Tier", "Initiate"⟩ (by decide) (by decide)

/-- The star suffix `get_member_tier` appends, independent of the base
tier. -/
def starSuffix (m : MemberM) : String :=
  if tierRoleIn "[ ⁂ ]" m.roleIds then " [ ⁂ ]"
  else if tierRoleIn "[ ⁑ ]" m.roleIds then " [ ⁑ ]"
  else ""

/-- The star count a member's markers carry: ⁂ wins over ⁑. -/
def starCountOf (m : MemberM) : Int :=
  if tierRoleIn "[ ⁂ ]" m.roleIds then 3
  else if tierRoleIn "[ ⁑ ]" m.roleIds then 2
  else 0

/-- Validation in `addtier` for stars (grayboty.py:765-771): a star request on a
level outside `valid_star_levels` is rejected with an error notice. -/
def addtierStarsRejected (level_name : String) (stars : Option Int) : Bool :=
  stars.isSome && !(valid_star_levels.contains level_name)

/-- Member holding the ✩ Legend-Tier role and the ⁂ star role — a base tier
outside `addtier`'s valid star subset. -/
def legendStarMember : MemberM :=
  ⟨3, [1383883524783996998, 1384516311354445965], []⟩

/-- Lemma: `find?` returns the element at the first index satisfying the
predicate. -/
theorem find?_eq_of_first {α : Type} (p : α → Bool) (l : List α) (i : Nat)
    (hi : i < l.length) (hp : p (l.get ⟨i, hi⟩) = true)
    (hfirst : ∀ j (hj : j < l.length), j < i → p (l.get ⟨j, hj⟩) = false) :
    l.find? p = some (l.get ⟨i, hi⟩) := by
  induction l generalizing i with
  | nil => simp at hi
  | cons a as ih =>
    cases i with
    | zero =>
      simp only [List.get] at hp
      simp [List.find?, hp]
    | succ j =>
      have h0 : p a = false := by
        have := hfirst 0 (by simp) (by omega)
        simpa using this
      simp only [List.find?, h0]
      have hi' : j < as.length := by simpa using hi
      have hp' : p (as.get ⟨j, hi'⟩) = true := by simpa using hp
      have hfirst' : ∀ k (hk : k < as.length), k < j →
          p (as.get ⟨k, hk⟩) = false := by
        intro k hk hkj
        have := hfirst (k + 1) (by simpa using Nat.succ_lt_succ hk) (by omega)
        simpa using this
      simpa using ih j hi' hp' hfirst'

/-- C4 (counterexample to the claim as stated): a member whose markers are
the ✩ Legend-Tier role and the ⁂ star role resolves to
"✩ Legend-Tier [ ⁂ ]" with star count 3, although ✩ Legend-Tier is outside
the star modifier's valid subset — the star count is not zero there. -/
theorem star_outside_valid_subset_applied :
    get_member_tier legendStarMember = some "✩ Legend-Tier [ ⁂ ]" ∧
    (parse_tier_components "✩ Legend-Tier [ ⁂ ]").2 = -3 ∧
    valid_star_levels.contains "✩ Legend-Tier" = false := by
  refine ⟨by decide, by decide, by decide⟩

/-- C4 (amended): tier resolution walks the base tiers from highest to
lowest and takes the first one whose role the member holds; the star suffix
is then applied unconditionally whenever a star role is present (⁂ before
⁑), regardless of the resolved base tier, and parsing the resolved name
recovers exactly that base index and star count.  The valid-subset
restriction exists only in `addtier`'s assignment-time validation, which
rejects a star request on a base tier outside the subset with an error
notice rather than silently dropping it. -/
theorem tier_resolution (m : MemberM) (i : Nat) (hi : i < tier_order.length)
    (hpres : tierRoleIn (tier_order.get ⟨i, hi⟩) m.roleIds = true)
    (hfirst : ∀ j (hj : j < tier_order.length), j < i →
      tierRoleIn (tier_order.get ⟨j, hj⟩) m.roleIds = false) :
    get_member_tier m = some (tier_order.get ⟨i, hi⟩ ++ starSuffix m) ∧
    parse_tier_components (tier_order.get ⟨i, hi⟩ ++ starSuffix m)
      = (i, -(starCountOf m)) ∧
    (∀ level stars, valid_star_levels.contains level = false →
      stars ≠ Option.none → addtierStarsRejected level stars = true) := by
  have hfind := find?_eq_of_first (fun t => tierRoleIn t m.roleIds)
    tier_order i hi hpres hfirst
  refine ⟨?_, ?_, ?_⟩
  · unfold get_member_tier
    rw [hfind]
    cases hh3 : tierRoleIn "[ ⁂ ]" m.roleIds <;>
      cases hh2 : tierRoleIn "[ ⁑ ]" m.roleIds <;>
        simp [starSuffix, hh3, hh2]
  · have hi7 : i < 7 := by simpa [tier_order] using hi
    cases hh3 : tierRoleIn "[ ⁂ ]" m.roleIds <;>
      cases hh2 : tierRoleIn "[ ⁑ ]" m.roleIds <;>
        simp only [starSuffix, starCountOf, hh3, hh2, Bool.false_eq_true,
          if_true, if_false] <;>
        interval_cases i <;> rfl
  · intro level stars hval hsome
    have hv2 : level ∉ valid_star_levels := by simpa using hval
    simp [addtierStarsRejected, hv2, Option.isSome_iff_ne_none, hsome]

theorem tier_resolution_witness :
    get_member_tier legendStarMember
      = some (tier_order.get ⟨0, by decide⟩ ++ starSuffix legendStarMember) ∧
    parse_tier_components
        (tier_order.get ⟨0, by decide⟩ ++ starSuffix legendStarMember)
      = (0, -(starCountOf legendStarMember)) ∧
    (∀ level stars, valid_star_levels.contains level = false →
      stars ≠ Option.none → addtierStarsRejected level stars = true) :=
  tier_resolution legendStarMember 0 (by decide) (by decide)
    (fun j hj hlt => absurd hlt (by omega))

/-! ## Pagination, view state machine, command traces -/

/-- Comprehension `pages = [lines[i:i + per_page] for i in range(0, len(lines), per_page)]`
(grayboty.py:1022-1023) with `per_page = 15`: chunk `k` covers indices
`15*k .. 15*k + 14`; `range(0, n, 15)` has `⌈n/15⌉` elements. -/
def chunkPages {α : Type} (lines : List α) : List (List α) :=
  (List.range ((lines.length + 14) / 15)).map
    (fun k => (lines.drop (15 * k)).take 15)

theorem chunkPages_cons {α : Type} (l : List α) (h : l ≠ []) :
    chunkPages l = l.take 15 :: chunkPages (l.drop 15) := by
  have hlen : 1 ≤ l.length := List.length_pos.mpr h
  have hq : (l.length + 14) / 15 = ((l.drop 15).length + 14) / 15 + 1 := by
    rw [List.length_drop]; omega
  unfold chunkPages
  rw [hq, List.range_succ_eq_map, List.map_cons, List.map_map]
  apply List.cons_eq_cons.mpr
  constructor
  · simp
  · apply List.map_congr_left
    intro k hk
    show (l.drop (15 * (k + 1))).take 15
      = ((l.drop 15).drop (15 * k)).take 15
    rw [List.drop_drop, show 15 * (k + 1) = 15 * k + 15 from by omega,
      show 15 * k + 15 = 15 + 15 * k from by omega]

/-- Page lengths: full pages of 15 followed by a final page of
`n mod 15` entries when `n` is not a multiple of 15. -/
theorem chunkPages_lengths {α : Type} (l : List α) :
    (chunkPages l).map List.length =
      List.replicate (l.length / 15) 15 ++
        (if l.length % 15 = 0 then [] else [l.length % 15]) := by
  suffices h : ∀ (n : Nat) (l : List α), l.length = n →
      (chunkPages l).map List.length =
        List.replicate (l.length / 15) 15 ++
          (if l.length % 15 = 0 then [] else [l.length % 15]) from
    h l.length l rfl
  intro n
  induction n using Nat.strong_induction_on with
  | _ n ih =>
    intro l hl
    by_cases he : l = []
    · subst he
      simp [chunkPages]
    · have hlen : 1 ≤ l.length := List.length_pos.mpr he
      have h15 : (l.drop 15).length = l.length - 15 := List.length_drop 15 l
      rw [chunkPages_cons l he, List.map_cons,
        ih (l.length - 15) (by omega) (l.drop 15) h15, List.length_take, h15]
      by_cases hc : 15 ≤ l.length
      · rw [show min 15 l.length = 15 from by omega,
          show (l.length - 15) % 15 = l.length % 15 from by omega,
          show l.length / 15 = (l.length - 15) / 15 + 1 from by omega,
          List.replicate_succ, List.cons_append]
      · rw [show min 15 l.length = l.length from by omega,
          show l.length - 15 = 0 from by omega]
        rw [show (0 : Nat) / 15 = 0 from rfl, show (0 : Nat) % 15 = 0 from rfl]
        rw [if_pos rfl, List.replicate_zero,
          show l.length / 15 = 0 from by omega,
          if_neg (by omega), List.replicate_zero]
        simp [show l.length % 15 = l.length from by omega]

/-- The five navigation buttons of `TierListView`. -/
inductive NavAction
  | first | prev | goToYou | next | last
deriving DecidableEq

/-- The mutable state of a `TierListView` (grayboty.py:817-830): the pages,
the 0-based current page, the invoker's 1-based absolute position (if any),
and the active filter name. -/
structure TLView where
  pages : List (List String)
  current_page : Int
  invoker_pos : Option Int
  filter_name : Option String
deriving DecidableEq

/-- The button handlers of `TierListView` (grayboty.py:886-915): `first`
jumps to page 0; `prev`/`next` move one page inside the bounds; `go_to_you`
jumps to `(invoker_pos - 1) // 15` when the invoker has a position and
otherwise sends an ephemeral notice, leaving the page unchanged; `last`
jumps to `len(pages) - 1`.  The second component is the notice sent, if
any. -/
def applyButton (v : TLView) : NavAction → TLView × Option String
  | .first => ({ v with current_page := 0 }, none)
  | .prev =>
      if v.current_page > 0
      then ({ v with current_page := v.current_page - 1 }, none)
      else (v, none)
  | .goToYou =>
      match v.invoker_pos with
      | none => (v, some "You have no Tier position.")
      | some p => ({ v with current_page := (p - 1).fdiv 15 }, none)
  | .next =>
      if v.current_page < (v.pages.length : Int) - 1
      then ({ v with current_page := v.current_page + 1 }, none)
      else (v, none)
  | .last => ({ v with current_page := (v.pages.length : Int) - 1 }, none)

/-- The external channel as the set of message ids still existing there. -/
structure MsgWorld where
  msgs : List Int
deriving DecidableEq

/-- Call `message.delete()` against the channel: removes the message, or raises
`discord.NotFound` when it is already gone. -/
def deleteMessage (w : MsgWorld) (mid : Int) : Except Unit MsgWorld :=
  if w.msgs.contains mid then .ok ⟨w.msgs.erase mid⟩ else .error ()

/-- Handler `TierListView.on_timeout` (grayboty.py:917-922): if the view holds a
message reference, try to delete it, swallowing `discord.NotFound`; the
handler itself never raises. -/
def on_timeout (message : Option Int) (w : MsgWorld) : Option Int × MsgWorld :=
  match message with
  | none => (none, w)
  | some mid =>
    match deleteMessage w mid with
    | .ok w' => (some mid, w')
    | .error _ => (some mid, w)

/-- A view together with its expiry flag. -/
structure DispatchState where
  view : TLView
  expired : Bool
deriving DecidableEq

/-- Modelled from the spec: discord.py's dispatcher stops delivering button
interactions to a view that has timed out; that gate lives in the framework,
not in src/grayboty.py.  Per the spec, any transition while `Expired` is a
no-op. -/
def dispatch (s : DispatchState) (a : NavAction) :
    DispatchState × Option String :=
  if s.expired then (s, none)
  else
    let r := applyButton s.view a
    ({ s with view := r.1 }, r.2)

/-- C6: pagination and jump-to-owner arithmetic.  Pages are chunks of 15
with a final page of `n mod 15` entries when `n` is not a multiple of 15
(37 rows yield pages of lengths 15, 15, 7); `go_to_you` with position `p`
moves to 0-based page `(p - 1) // 15` (position 16 lands on page index 1)
and is rejected with the notice "You have no Tier position.", page state
unchanged, when the invoker has no position. -/
theorem pagination_and_jump (lines : List String) (v : TLView) (p : Int) :
    ((chunkPages lines).map List.length =
      List.replicate (lines.length / 15) 15 ++
        (if lines.length % 15 = 0 then [] else [lines.length % 15])) ∧
    ((chunkPages (List.replicate 37 "x")).map List.length = [15, 15, 7]) ∧
    (v.invoker_pos = some p →
      applyButton v .goToYou
        = ({ v with current_page := (p - 1).fdiv 15 }, none)) ∧
    (v.invoker_pos = some 16 →
      (applyButton v .goToYou).1.current_page = 1) ∧
    (v.invoker_pos = none →
      applyButton v .goToYou = (v, some "You have no Tier position.")) := by
  refine ⟨chunkPages_lengths lines, by decide, ?_, ?_, ?_⟩
  · intro h
    simp [applyButton, h]
  · intro h
    simp [applyButton, h]
  · intro h
    simp [applyButton, h]

/-- Sample view with 37 rows (pages 15, 15, 7) and invoker position 16. -/
def viewW : TLView := ⟨chunkPages (List.replicate 37 "x"), 0, some 16, none⟩

/-- Sample view whose invoker has no position. -/
def viewN : TLView := ⟨chunkPages (List.replicate 37 "x"), 2, none, none⟩

theorem pagination_and_jump_witness :
    (applyButton viewW .goToYou
      = ({ viewW with current_page := ((16 : Int) - 1).fdiv 15 }, none)) ∧
    ((applyButton viewW .goToYou).1.current_page = 1) ∧
    (applyButton viewN .goToYou = (viewN, some "You have no Tier position.")) :=
  ⟨(pagination_and_jump [] viewW 16).2.2.1 rfl,
   (pagination_and_jump [] viewW 16).2.2.2.1 rfl,
   (pagination_and_jump [] viewN 16).2.2.2.2 rfl⟩

/-- C10: for a view over a non-empty page list whose invoker position, when
present, lies between 1 and 15·(number of pages), every navigation button
preserves the pages and the invariant
`0 ≤ current_page ≤ totalPages - 1`, so rendering always addresses an
existing page. -/
theorem view_page_invariant (v : TLView) (a : NavAction)
    (hpages : v.pages ≠ [])
    (hpos : ∀ p, v.invoker_pos = some p →
      1 ≤ p ∧ p ≤ 15 * (v.pages.length : Int))
    (hinv : 0 ≤ v.current_page ∧
      v.current_page ≤ (v.pages.length : Int) - 1) :
    (applyButton v a).1.pages = v.pages ∧
    0 ≤ (applyButton v a).1.current_page ∧
    (applyButton v a).1.current_page
      ≤ (((applyButton v a).1.pages.length : Int) - 1) := by
  have hlen : 1 ≤ (v.pages.length : Int) := by
    have := List.length_pos.mpr hpages
    omega
  cases a with
  | first =>
    have he : applyButton v .first = ({ v with current_page := 0 }, none) := rfl
    rw [he]
    refine ⟨rfl, ?_, ?_⟩ <;> simp <;> omega
  | prev =>
    by_cases h : v.current_page > 0
    · have he : applyButton v .prev
          = ({ v with current_page := v.current_page - 1 }, none) := by
        simp [applyButton, h]
      rw [he]
      refine ⟨rfl, ?_, ?_⟩ <;> simp <;> omega
    · have he : applyButton v .prev = (v, none) := by
        simp [applyButton, h]
      rw [he]
      refine ⟨rfl, ?_, ?_⟩ <;> simp <;> omega
  | goToYou =>
    cases hip : v.invoker_pos with
    | none =>
      have he : applyButton v .goToYou
          = (v, some "You have no Tier position.") := by
        simp [applyButton, hip]
      rw [he]
      refine ⟨rfl, ?_, ?_⟩ <;> simp <;> omega
    | some p =>
      have hp := hpos p hip
      have he : applyButton v .goToYou
          = ({ v with current_page := (p - 1).fdiv 15 }, none) := by
        simp [applyButton, hip]
      rw [he]
      rw [Int.fdiv_eq_ediv _ (by omega : (0 : Int) ≤ 15)]
      refine ⟨rfl, ?_, ?_⟩ <;> simp <;> omega
  | next =>
    by_cases h : v.current_page < (v.pages.length : Int) - 1
    · have he : applyButton v .next
          = ({ v with current_page := v.current_page + 1 }, none) := by
        simp [applyButton, h]
      rw [he]
      refine ⟨rfl, ?_, ?_⟩ <;> simp <;> omega
    · have he : applyButton v .next = (v, none) := by
        simp [applyButton, h]
      rw [he]
      refine ⟨rfl, ?_, ?_⟩ <;> simp <;> omega
  | last =>
    have he : applyButton v .last
        = ({ v with current_page := (v.pages.length : Int) - 1 }, none) := rfl
    rw [he]
    refine ⟨rfl, ?_, ?_⟩ <;> simp <;> omega

theorem view_page_invariant_witness :
    (applyButton viewW .goToYou).1.pages = viewW.pages ∧
    0 ≤ (applyButton viewW .goToYou).1.current_page ∧
    (applyButton viewW .goToYou).1.current_page
      ≤ (((applyButton viewW .goToYou).1.pages.length : Int) - 1) :=
  view_page_invariant viewW .goToYou (by decide)
    (fun p hp => by injection hp with hh; subst hh; decide) (by decide)

/-- C8: view teardown on expiry is idempotent.  Running `on_timeout` twice
equals running it once; when the rendered message was already removed
externally the teardown changes nothing (the NotFound raised by the delete
is swallowed, so no error escapes); when the message still exists the
teardown removes it; and any transition dispatched to an expired view is a
no-op with no notice. -/
theorem view_teardown_idempotent (message : Option Int) (w : MsgWorld)
    (hnd : w.msgs.Nodup) :
    (on_timeout (on_timeout message w).1 (on_timeout message w).2
      = on_timeout message w) ∧
    (∀ mid, mid ∉ w.msgs → on_timeout (some mid) w = (some mid, w)) ∧
    (∀ mid, mid ∈ w.msgs →
      (on_timeout (some mid) w).2.msgs = w.msgs.erase mid ∧
      mid ∉ (on_timeout (some mid) w).2.msgs) ∧
    (∀ (s : DispatchState) (a : NavAction), s.expired = true →
      dispatch s a = (s, none)) := by
  refine ⟨?_, ?_, ?_, ?_⟩
  · cases message with
    | none => rfl
    | some mid =>
      by_cases hc : w.msgs.contains mid = true
      · have hm : mid ∈ w.msgs := by simpa using hc
        have he : on_timeout (some mid) w = (some mid, ⟨w.msgs.erase mid⟩) := by
          simp [on_timeout, deleteMessage, hc, hm]
        rw [he]
        have hnm : mid ∉ w.msgs.erase mid := by
          intro hmem
          exact ((List.Nodup.mem_erase_iff hnd).mp hmem).1 rfl
        have hc2 : (w.msgs.erase mid).contains mid = false := by
          simpa using hnm
        simp [on_timeout, deleteMessage, hc2, hnm]
      · simp only [Bool.not_eq_true] at hc
        have hm : mid ∉ w.msgs := by simpa using hc
        simp [on_timeout, deleteMessage, hc, hm]
  · intro mid hmid
    have hc : w.msgs.contains mid = false := by simpa using hmid
    simp [on_timeout, deleteMessage, hc, hmid]
  · intro mid hmid
    have hc : w.msgs.contains mid = true := by simpa using hmid
    have he : on_timeout (some mid) w = (some mid, ⟨w.msgs.erase mid⟩) := by
      simp [on_timeout, deleteMessage, hc, hmid]
    rw [he]
    refine ⟨rfl, ?_⟩
    intro hmem
    exact ((List.Nodup.mem_erase_iff hnd).mp hmem).1 rfl
  · intro s a hexp
    simp [dispatch, hexp]

theorem view_teardown_idempotent_witness :
    (on_timeout (on_timeout (some 5) ⟨[5]⟩).1 (on_timeout (some 5) ⟨[5]⟩).2
      = on_timeout (some 5) ⟨[5]⟩) ∧
    (on_timeout (some 6) ⟨[5]⟩ = (some 6, ⟨[5]⟩)) ∧
    ((on_timeout (some 5) ⟨[5]⟩).2.msgs = ([5] : List Int).erase 5 ∧
      (5 : Int) ∉ (on_timeout (some 5) ⟨[5]⟩).2.msgs) ∧
    (dispatch ⟨viewW, true⟩ .next = (⟨viewW, true⟩, none)) := by
  have h := view_teardown_idempotent (some 5) ⟨[5]⟩ (by decide)
  exact ⟨h.1, h.2.1 6 (by decide), h.2.2.1 5 (by decide),
    h.2.2.2 ⟨viewW, true⟩ .next rfl⟩

/-- The awaited / externally visible steps a points command performs, in
program order. -/
inductive Ev
  | checkPermission
  | validateFields
  | logCommand
  | deferResponse
  | acquireScopeLock
  | releaseScopeLock
  | throttleDelay
  | ledgerAdd (field : String) (amount : Int)
  | ledgerBatchAdd (field : String) (amount : Int)
  | followupSend
  | sleepSeconds (n : Nat)
  | deleteOwnMessage
deriving DecidableEq

/-- The step sequence of `addmp` (grayboty.py:519-564) as a function of its
guard outcomes: permission check, the ≤ 4 validation, the roll-call link
validation, logging, defer, the single ledger increment (guarded by
`missionpoints > 0`), the reply, and the 20 s sleep before deleting the
reply.  The guards exit early with an ephemeral notice. -/
def addmpEvents (hasPerm : Bool) (missionpoints : Int) (linkOk : Bool) :
    List Ev :=
  if !hasPerm then [.checkPermission]
  else if missionpoints > 4 then [.checkPermission, .validateFields]
  else if !linkOk then [.checkPermission, .validateFields]
  else [.checkPermission, .validateFields, .logCommand, .deferResponse]
    ++ (if missionpoints > 0 then [.ledgerAdd "mp" missionpoints] else [])
    ++ [.followupSend, .sleepSeconds 20, .deleteOwnMessage]

/-- The step sequence of `addtp` (grayboty.py:463-516): permission and
roll-call checks, logging, defer, the caller's own silent `+1` tp, one batch
call per weight bucket, the reply, the 20 s sleep, the delete; with no
valid mention the command replies with an info notice right after the
caller increment. -/
def addtpEvents (hasPerm linkOk anyValid : Bool)
    (batches : List (Int × List Int)) : List Ev :=
  if !hasPerm then [.checkPermission]
  else if !linkOk then [.checkPermission, .validateFields]
  else [.checkPermission, .validateFields, .logCommand, .deferResponse,
      .ledgerAdd "tp" 1]
    ++ (if !anyValid then [.followupSend]
        else (batches.map (fun pu => Ev.ledgerBatchAdd "tp" pu.1))
          ++ [.followupSend, .sleepSeconds 20, .deleteOwnMessage])

/-- Events that acquire, release or wait on a per-scope throttle. -/
def isThrottleEv : Ev → Bool
  | .acquireScopeLock => true
  | .releaseScopeLock => true
  | .throttleDelay => true
  | _ => false

/-- C7 (counterexample to the claim as stated): the full success-path trace
of the mutation command `addmp` — which does contain a ledger mutation —
contains no acquisition or release of any per-scope mutual-exclusion
primitive and no minimum-delay wait. -/
theorem addmp_no_scope_lock :
    (Ev.ledgerAdd "mp" 3 ∈ addmpEvents true 3 true) ∧
    (addmpEvents true 3 true).all (fun e => !isThrottleEv e) = true := by
  refine ⟨by decide, by decide⟩

/-- C7 (amended): mutation commands use no per-scope mutual exclusion and no
minimum inter-command delay — every event of every `addmp`/`addtp` trace is
a non-throttle event.  The only isolation is per ledger call: a single
`add_points` is one atomic read-modify-write that adds its delta to exactly
the addressed (guild, user, field) cell and leaves every other cell
unchanged; nothing prevents two same-scope mutation commands from
interleaving between their ledger calls. -/
theorem mutation_commands_unthrottled :
    (∀ (hasPerm linkOk : Bool) (mp : Int),
      (addmpEvents hasPerm mp linkOk).all (fun e => !isThrottleEv e) = true) ∧
    (∀ (hasPerm linkOk anyValid : Bool) (batches : List (Int × List Int)),
      (addtpEvents hasPerm linkOk anyValid batches).all
        (fun e => !isThrottleEv e) = true) ∧
    (∀ st gid uid g u f fl a,
      storeVal (add_points st gid uid f a).2 g u fl =
        if g = gid ∧ u = uid ∧ fl = f
        then storeVal st g u fl + a
        else storeVal st g u fl) := by
  refine ⟨?_, ?_, ?_⟩
  · intro hasPerm linkOk mp
    unfold addmpEvents
    split_ifs <;> simp [isThrottleEv]
  · intro hasPerm linkOk anyValid batches
    unfold addtpEvents
    split_ifs <;> simp only [List.all_eq_true] <;> intro e he <;>
      simp only [List.mem_append, List.mem_cons, List.mem_singleton,
        List.mem_map, List.not_mem_nil, or_false, false_or] at he
    · rcases he with rfl | rfl
      all_goals rfl
    · rcases he with rfl | rfl
      all_goals rfl
    · rcases he with (rfl | rfl | rfl | rfl | rfl) | rfl
      all_goals rfl
    · rcases he with (rfl | rfl | rfl | rfl | rfl) | ⟨pu, hpu, rfl⟩ | rfl | rfl | rfl
      all_goals rfl
  · intro st gid uid g u f fl a
    exact storeVal_add_points st gid uid g u f fl a
